import Mathlib

/-!
Verification development for a payments transaction processor.

The model is a shallow embedding of the engine's core:
money is a fixed-point decimal with 4 fractional digits, modelled as an
`Int` counting units of `10 ^ (-4)`; client accounts carry
`available`, `held`, `total` and `locked`; the engine owns an account
map and a dispute index, both modelled as association lists keyed by
`Nat` (mirroring hash maps keyed by `u16` / `u32`); the `expect` calls
on account lookups are modelled by a `panicked` flag on the engine
state; fallible record parsing returns `Option`.
-/

/- Money (`Decimal4`, fixed-point with scale 4) is modelled as `Int`:
the integer `v` denotes the monetary value `v / 10000`. Addition,
subtraction, equality and order on the wrapped `rust_decimal` value at
the common scale 4 are exact integer arithmetic on `v`. -/

/-- The four fractional digits of `n % 10000`, most significant first
(mirrors the fractional part of Rust's `{:.4}` formatting at scale 4). -/
def frac4 (n : Nat) : String :=
  String.mk [Nat.digitChar (n / 1000 % 10), Nat.digitChar (n / 100 % 10),
    Nat.digitChar (n / 10 % 10), Nat.digitChar (n % 10)]

/-- Mirrors `Display for Decimal4` (`write!(f, "{:.4}", self.0)`): sign,
integer part, a dot, then exactly four fractional digits. -/
def formatDec4 (v : Int) : String :=
  (if v < 0 then "-" else "") ++ toString (v.natAbs / 10000) ++ "." ++ frac4 (v.natAbs % 10000)

/-- Mirrors `str::trim` (kernel-computable; whitespace restricted to
ASCII, which is all the engine's inputs use). -/
def trimChars (cs : List Char) : List Char :=
  ((cs.dropWhile Char.isWhitespace).reverse.dropWhile Char.isWhitespace).reverse

/-- String form of `trimChars`. -/
def strTrim (s : String) : String :=
  String.mk (trimChars s.toList)

/-- Mirrors `str::to_lowercase` (kernel-computable; restricted to the
per-character lowering, which agrees on ASCII). -/
def strToLower (s : String) : String :=
  String.mk (s.toList.map Char.toLower)

/-- Numeric value of a digit string, most significant first. -/
def natOfDigits (cs : List Char) : Nat :=
  cs.foldl (fun n c => n * 10 + (c.toNat - 48)) 0

/-- Splits a character list at the single decimal point, if any; a second
decimal point is rejected. -/
def splitOnDot (cs : List Char) : Option (List Char × List Char) :=
  let pre := cs.takeWhile (fun c => c ≠ '.')
  match cs.dropWhile (fun c => c ≠ '.') with
  | [] => some (pre, [])
  | _ :: post => if post.contains '.' then none else some (pre, post)

/-- Right-pads (or truncates) the fractional digits to exactly four. -/
def padFrac4 (fp : List Char) : List Char :=
  fp.take 4 ++ List.replicate (4 - (fp.take 4).length) '0'

/-- Modelled from the spec: the construction of `Money` values
(`Decimal4::from_str`, which delegates to the external `rust_decimal`
crate and then rescales to 4 fractional digits). Spec §4.1: leading and
trailing whitespace is trimmed; an optional sign, an integer part and an
optional fractional part are accepted, the fractional digits are
preserved and right-padded with zeros to scale 4; empty or non-numeric
input fails. Fractional digits beyond the fourth are truncated (the spec
fixes the behaviour only for inputs with at most four). -/
def decimal4FromStr (s : String) : Option Int :=
  let cs := trimChars s.toList
  let signBody : Bool × List Char :=
    match cs with
    | '-' :: r => (true, r)
    | '+' :: r => (false, r)
    | r => (false, r)
  match splitOnDot signBody.2 with
  | none => none
  | some (ip, fp) =>
    if ip.isEmpty && fp.isEmpty then none
    else if ip.all Char.isDigit && fp.all Char.isDigit then
      let v : Int := ((natOfDigits ip * 10000 + natOfDigits (padFrac4 fp) : Nat) : Int)
      some (if signBody.1 then -v else v)
    else none

/-- Mirrors `ClientAccount` (account.rs). -/
structure ClientAccount where
  client : Nat
  available : Int
  held : Int
  total : Int
  locked : Bool
deriving Repr, DecidableEq

/-- Mirrors `ClientAccount::new`. -/
def ClientAccount.new (clientId : Nat) : ClientAccount :=
  { client := clientId, available := 0, held := 0, total := 0, locked := false }

/-- Mirrors `ClientAccount::is_locked`. -/
def ClientAccount.is_locked (a : ClientAccount) : Bool :=
  a.locked

/-- Mirrors `ClientAccount::deposit`: the returned pair is the success
flag together with the account after the (in-place) mutation. -/
def ClientAccount.deposit (a : ClientAccount) (amount : Int) : Bool × ClientAccount :=
  if a.locked then (false, a)
  else (true, { a with available := a.available + amount, total := a.total + amount })

/-- Mirrors `ClientAccount::withdraw`. -/
def ClientAccount.withdraw (a : ClientAccount) (amount : Int) : Bool × ClientAccount :=
  if a.locked then (false, a)
  else if a.available < amount then (false, a)
  else (true, { a with available := a.available - amount, total := a.total - amount })

/-- Mirrors `ClientAccount::hold`. -/
def ClientAccount.hold (a : ClientAccount) (amount : Int) : Bool × ClientAccount :=
  if a.locked then (false, a)
  else (true, { a with available := a.available - amount, held := a.held + amount })

/-- Mirrors `ClientAccount::release`. -/
def ClientAccount.release (a : ClientAccount) (amount : Int) : Bool × ClientAccount :=
  if a.locked then (false, a)
  else (true, { a with held := a.held - amount, available := a.available + amount })

/-- Mirrors `ClientAccount::chargeback`. -/
def ClientAccount.chargeback (a : ClientAccount) (amount : Int) : Bool × ClientAccount :=
  if a.locked then (false, a)
  else (true, { a with held := a.held - amount, total := a.total - amount, locked := true })

/-- Mirrors `TxKind` (transaction.rs). -/
inductive TxKind where
  | deposit (amount : Int)
  | withdrawal (amount : Int)
  | dispute
  | resolve
  | chargeback
deriving Repr, DecidableEq

/-- Mirrors `ParsedTransaction`. -/
structure ParsedTransaction where
  tx_id : Nat
  client : Nat
  kind : TxKind
deriving Repr, DecidableEq

/-- Mirrors `TransactionRecord` (the raw CSV record after `serde`
deserialization: a `type` string, numeric ids, and an optional amount
string). -/
structure TransactionRecord where
  tx_type : String
  client : Nat
  tx : Nat
  amount : Option String
deriving Repr, DecidableEq

/-- Mirrors `TransactionRecord::parse_amount`. -/
def TransactionRecord.parse_amount (r : TransactionRecord) : Option Int :=
  match r.amount with
  | none => none
  | some s =>
    let trimmed := strTrim s
    if trimmed.toList.isEmpty then none else decimal4FromStr trimmed

/-- Mirrors `TransactionRecord::parse`. -/
def TransactionRecord.parse (r : TransactionRecord) : Option ParsedTransaction :=
  let ty := strToLower (strTrim r.tx_type)
  if ty = "deposit" then
    (r.parse_amount).map fun a => { tx_id := r.tx, client := r.client, kind := TxKind.deposit a }
  else if ty = "withdrawal" then
    (r.parse_amount).map fun a => { tx_id := r.tx, client := r.client, kind := TxKind.withdrawal a }
  else if ty = "dispute" then
    some { tx_id := r.tx, client := r.client, kind := TxKind.dispute }
  else if ty = "resolve" then
    some { tx_id := r.tx, client := r.client, kind := TxKind.resolve }
  else if ty = "chargeback" then
    some { tx_id := r.tx, client := r.client, kind := TxKind.chargeback }
  else none

/-- Mirrors `StoredTransaction`. -/
structure StoredTransaction where
  tx_id : Nat
  client : Nat
  amount : Int
  under_dispute : Bool
deriving Repr, DecidableEq

/-- Mirrors `StoredTransaction::from_deposit`. -/
def StoredTransaction.from_deposit (txId client : Nat) (amount : Int) : StoredTransaction :=
  { tx_id := txId, client := client, amount := amount, under_dispute := false }

/-- Association-list lookup, modelling `HashMap::get`. -/
def alookup {α : Type} : List (Nat × α) → Nat → Option α
  | [], _ => none
  | (k0, v0) :: rest, k => if k0 = k then some v0 else alookup rest k

/-- Association-list update of an existing key, modelling in-place
mutation through `HashMap::get_mut`. -/
def aset {α : Type} : List (Nat × α) → Nat → α → List (Nat × α)
  | [], _, _ => []
  | (k0, v0) :: rest, k, v => if k0 = k then (k, v) :: rest else (k0, v0) :: aset rest k v

/-- Mirrors `PaymentsEngine` (engine.rs). The two hash maps are
association lists; `panicked` records whether one of the `expect` calls
on an account lookup has failed (a Rust panic). -/
structure PaymentsEngine where
  accounts : List (Nat × ClientAccount)
  transactions : List (Nat × StoredTransaction)
  panicked : Bool
deriving Repr, DecidableEq

/-- Mirrors `PaymentsEngine::new`. -/
def PaymentsEngine.new : PaymentsEngine :=
  { accounts := [], transactions := [], panicked := false }

/-- Mirrors `PaymentsEngine::ensure_account_exists`
(`entry(client).or_insert_with(|| ClientAccount::new(client))`). -/
def PaymentsEngine.ensure_account_exists (e : PaymentsEngine) (client : Nat) : PaymentsEngine :=
  if (alookup e.accounts client).isSome then e
  else { e with accounts := e.accounts ++ [(client, ClientAccount.new client)] }

/-- Mirrors `PaymentsEngine::is_account_locked`. -/
def PaymentsEngine.is_account_locked (e : PaymentsEngine) (client : Nat) : Bool :=
  ((alookup e.accounts client).map ClientAccount.is_locked).getD false

/-- Mirrors `PaymentsEngine::process_deposit`. -/
def PaymentsEngine.process_deposit (e : PaymentsEngine) (txId client : Nat) (amount : Int) :
    PaymentsEngine :=
  if (alookup e.transactions txId).isSome then e
  else
    match alookup e.accounts client with
    | none => { e with panicked := true }
    | some account =>
      let r := account.deposit amount
      let e1 := { e with accounts := aset e.accounts client r.2 }
      if r.1 then
        { e1 with
          transactions := e1.transactions ++ [(txId, StoredTransaction.from_deposit txId client amount)] }
      else e1

/-- Mirrors `PaymentsEngine::process_withdrawal`. -/
def PaymentsEngine.process_withdrawal (e : PaymentsEngine) (txId client : Nat) (amount : Int) :
    PaymentsEngine :=
  if (alookup e.transactions txId).isSome then e
  else
    match alookup e.accounts client with
    | none => { e with panicked := true }
    | some account =>
      { e with accounts := aset e.accounts client (account.withdraw amount).2 }

/-- Mirrors `PaymentsEngine::process_dispute`. -/
def PaymentsEngine.process_dispute (e : PaymentsEngine) (txId client : Nat) : PaymentsEngine :=
  match alookup e.transactions txId with
  | none => e
  | some st =>
    if st.client ≠ client then e
    else if st.under_dispute then e
    else
      let amount := st.amount
      let e1 := { e with transactions := aset e.transactions txId { st with under_dispute := true } }
      match alookup e1.accounts client with
      | none => { e1 with panicked := true }
      | some account =>
        { e1 with accounts := aset e1.accounts client (account.hold amount).2 }

/-- Mirrors `PaymentsEngine::process_resolve`. -/
def PaymentsEngine.process_resolve (e : PaymentsEngine) (txId client : Nat) : PaymentsEngine :=
  match alookup e.transactions txId with
  | none => e
  | some st =>
    if st.client ≠ client then e
    else if !st.under_dispute then e
    else
      let amount := st.amount
      let e1 := { e with transactions := aset e.transactions txId { st with under_dispute := false } }
      match alookup e1.accounts client with
      | none => { e1 with panicked := true }
      | some account =>
        { e1 with accounts := aset e1.accounts client (account.release amount).2 }

/-- Mirrors `PaymentsEngine::process_chargeback`. -/
def PaymentsEngine.process_chargeback (e : PaymentsEngine) (txId client : Nat) : PaymentsEngine :=
  match alookup e.transactions txId with
  | none => e
  | some st =>
    if st.client ≠ client then e
    else if !st.under_dispute then e
    else
      let amount := st.amount
      let e1 := { e with transactions := aset e.transactions txId { st with under_dispute := false } }
      match alookup e1.accounts client with
      | none => { e1 with panicked := true }
      | some account =>
        { e1 with accounts := aset e1.accounts client (account.chargeback amount).2 }

/-- Mirrors `PaymentsEngine::process_transaction`. -/
def PaymentsEngine.process_transaction (e : PaymentsEngine) (tx : ParsedTransaction) :
    PaymentsEngine :=
  match tx.kind with
  | TxKind.deposit amount =>
    let e1 := e.ensure_account_exists tx.client
    match alookup e1.accounts tx.client with
    | none => { e1 with panicked := true }
    | some a => if a.is_locked then e1 else e1.process_deposit tx.tx_id tx.client amount
  | TxKind.withdrawal amount =>
    let e1 := e.ensure_account_exists tx.client
    match alookup e1.accounts tx.client with
    | none => { e1 with panicked := true }
    | some a => if a.is_locked then e1 else e1.process_withdrawal tx.tx_id tx.client amount
  | TxKind.dispute =>
    if e.is_account_locked tx.client then e else e.process_dispute tx.tx_id tx.client
  | TxKind.resolve =>
    if e.is_account_locked tx.client then e else e.process_resolve tx.tx_id tx.client
  | TxKind.chargeback =>
    if e.is_account_locked tx.client then e else e.process_chargeback tx.tx_id tx.client

/-- One item yielded by the CSV record source: either a deserialized
record, or an error from the `csv` iterator (`ioFault` tells whether the
underlying cause is an I/O fault of the reader rather than a parse
fault; the engine's loop treats both identically). -/
inductive CsvItem where
  | ok (r : TransactionRecord)
  | err (ioFault : Bool)
deriving Repr, DecidableEq

/-- Mirrors the body of the loop in `PaymentsEngine::process_csv`:
deserialization errors and unparseable records are logged and skipped. -/
def csvStep (e : PaymentsEngine) (item : CsvItem) : PaymentsEngine :=
  match item with
  | CsvItem.ok r =>
    match r.parse with
    | some tx => e.process_transaction tx
    | none => e
  | CsvItem.err _ => e

/-- Mirrors the error type `EngineError` (error.rs), restricted to the
constructors `process_csv` could in principle return. -/
inductive EngineError where
  | ioError
  | csvError
deriving Repr, DecidableEq

/-- Mirrors `PaymentsEngine::process_csv`: iterate the record source,
logging and skipping every failed item, and return `Ok(())` (the source
ends with an unconditional `Ok(())`). -/
def PaymentsEngine.process_csv (e : PaymentsEngine) (items : List CsvItem) :
    Except EngineError Unit × PaymentsEngine :=
  (Except.ok (), items.foldl csvStep e)

/-- Processing a whole record stream from a fresh engine. -/
def processCsvState (items : List CsvItem) : PaymentsEngine :=
  items.foldl csvStep PaymentsEngine.new

/-- The `available` balance the engine holds for `client` (0 when no
account exists yet, matching a fresh account's balance). -/
def availableOf (e : PaymentsEngine) (client : Nat) : Int :=
  ((alookup e.accounts client).map ClientAccount.available).getD 0

/-- Insertion into a list sorted ascending by the `client` field. -/
def insertByClient (a : ClientAccount) : List ClientAccount → List ClientAccount
  | [] => [a]
  | b :: rest => if a.client ≤ b.client then a :: b :: rest else b :: insertByClient a rest

/-- Sorting by the `client` field, modelling `accounts.sort_by_key(|a| a.client)`. -/
def sortAccounts : List ClientAccount → List ClientAccount
  | [] => []
  | a :: rest => insertByClient a (sortAccounts rest)

/-- The CSV row written for one account by `PaymentsEngine::write_output`. -/
def accountRow (a : ClientAccount) : List String :=
  [toString a.client, formatDec4 a.available, formatDec4 a.held, formatDec4 a.total,
    if a.locked then "true" else "false"]

/-- Mirrors `PaymentsEngine::write_output`: the header record, then one
record per account, sorted by client id. -/
def PaymentsEngine.write_output (e : PaymentsEngine) : List (List String) :=
  ["client", "available", "held", "total", "locked"] ::
    (sortAccounts (e.accounts.map Prod.snd)).map accountRow

/-- `a'` is the account produced by one of the five mutators applied to `a`. -/
def IsMutation (a a' : ClientAccount) : Prop :=
  ∃ x : Int, a' = (a.deposit x).2 ∨ a' = (a.withdraw x).2 ∨ a' = (a.hold x).2 ∨
    a' = (a.release x).2 ∨ a' = (a.chargeback x).2

/-- The engine invariant behind the `expect` calls: no panic has
happened, and every stored transaction's owning client has an account. -/
def EngineInv (e : PaymentsEngine) : Prop :=
  e.panicked = false ∧
    ∀ p ∈ e.transactions, (alookup e.accounts p.2.client).isSome = true

/-- Well-formedness that the Rust `HashMap<u16, ClientAccount>`
guarantees: keys are distinct, and each account's `client` field equals
its key. -/
def EngineWF (e : PaymentsEngine) : Prop :=
  (e.accounts.map Prod.fst).Nodup ∧ ∀ p ∈ e.accounts, p.2.client = p.1

/-- Every deposit or withdrawal the item would dispatch carries a
non-negative amount. -/
def itemAmountNonneg (item : CsvItem) : Bool :=
  match item with
  | CsvItem.err _ => true
  | CsvItem.ok r =>
    match r.parse with
    | none => true
    | some tx =>
      match tx.kind with
      | TxKind.deposit a => decide (0 ≤ a)
      | TxKind.withdrawal a => decide (0 ≤ a)
      | _ => true

/-- The transaction `tx`, applied to state `e`, opens a dispute on a
stored deposit of client `c` whose stored amount exceeds the client's
available balance at that moment (all the engine's acceptance guards are
required to pass). -/
def disputeOpensExceedingTx (e : PaymentsEngine) (tx : ParsedTransaction) (c : Nat) : Bool :=
  match tx.kind with
  | TxKind.dispute =>
    decide (tx.client = c) && !(e.is_account_locked c) &&
      (match alookup e.transactions tx.tx_id with
       | some st =>
         decide (st.client = c) && !st.under_dispute && decide (availableOf e c < st.amount)
       | none => false)
  | _ => false

/-- Item-level form of `disputeOpensExceedingTx`. -/
def disputeOpensExceeding (e : PaymentsEngine) (item : CsvItem) (c : Nat) : Bool :=
  match item with
  | CsvItem.err _ => false
  | CsvItem.ok r =>
    match r.parse with
    | none => false
    | some tx => disputeOpensExceedingTx e tx c

/-- All stored transaction amounts are non-negative. -/
def TxNonneg (e : PaymentsEngine) : Prop :=
  ∀ p ∈ e.transactions, 0 ≤ p.2.amount

/-- The record stream of the spec's scenario 3: deposit 100.0, withdraw
70.0, dispute the deposit; available ends at -70.0000. -/
def negativeStream : List CsvItem :=
  [CsvItem.ok (TransactionRecord.mk "deposit" 1 1 (some "100.0")),
   CsvItem.ok (TransactionRecord.mk "withdrawal" 1 2 (some "70.0")),
   CsvItem.ok (TransactionRecord.mk "dispute" 1 1 none)]

/-! ### Association-list lemmas -/

theorem alookup_aset_isSome {α : Type} (l : List (Nat × α)) (k k' : Nat) (v : α) :
    (alookup (aset l k v) k').isSome = (alookup l k').isSome := by
  induction l with
  | nil => rfl
  | cons p rest ih =>
    obtain ⟨k0, v0⟩ := p
    simp only [aset]
    by_cases h : k0 = k
    · subst h
      simp only [if_pos rfl, alookup]
      by_cases h' : k0 = k' <;> simp [h']
    · simp only [if_neg h, alookup]
      by_cases h' : k0 = k' <;> simp [h', ih]

theorem alookup_aset_self {α : Type} (l : List (Nat × α)) (k : Nat) (v : α)
    (h : (alookup l k).isSome) : alookup (aset l k v) k = some v := by
  induction l with
  | nil => simp [alookup] at h
  | cons p rest ih =>
    obtain ⟨k0, v0⟩ := p
    by_cases hp : k0 = k
    · simp [aset, alookup, hp]
    · simp only [alookup, if_neg hp] at h
      simp [aset, alookup, hp, ih h]

theorem alookup_aset_ne {α : Type} (l : List (Nat × α)) (k k' : Nat) (v : α)
    (h : k ≠ k') : alookup (aset l k v) k' = alookup l k' := by
  induction l with
  | nil => rfl
  | cons p rest ih =>
    obtain ⟨k0, v0⟩ := p
    by_cases hp : k0 = k
    · subst hp
      simp [aset, alookup, h, ih]
    · simp [aset, alookup, hp, ih]

theorem aset_eq_of_alookup {α : Type} (l : List (Nat × α)) (k : Nat) (v : α)
    (h : alookup l k = some v) : aset l k v = l := by
  induction l with
  | nil => simp [alookup] at h
  | cons p rest ih =>
    obtain ⟨k0, v0⟩ := p
    by_cases hp : k0 = k
    · simp only [alookup, if_pos hp] at h
      simp only [Option.some.injEq] at h
      simp [aset, hp, h]
    · simp only [alookup, if_neg hp] at h
      simp [aset, hp, ih h]

theorem alookup_append_left {α : Type} (l l' : List (Nat × α)) (k : Nat)
    (h : (alookup l k).isSome) : alookup (l ++ l') k = alookup l k := by
  induction l with
  | nil => simp [alookup] at h
  | cons p rest ih =>
    obtain ⟨k0, v0⟩ := p
    by_cases hp : k0 = k
    · simp [alookup, hp]
    · simp only [alookup, if_neg hp] at h
      simp [alookup, hp, ih h]

theorem alookup_append_right {α : Type} (l l' : List (Nat × α)) (k : Nat)
    (h : alookup l k = none) : alookup (l ++ l') k = alookup l' k := by
  induction l with
  | nil => rfl
  | cons p rest ih =>
    obtain ⟨k0, v0⟩ := p
    by_cases hp : k0 = k
    · simp [alookup, hp] at h
    · simp only [alookup, if_neg hp] at h
      simp [alookup, hp, ih h]

theorem alookup_mem {α : Type} {l : List (Nat × α)} {k : Nat} {v : α}
    (h : alookup l k = some v) : (k, v) ∈ l := by
  induction l with
  | nil => simp [alookup] at h
  | cons p rest ih =>
    obtain ⟨k0, v0⟩ := p
    by_cases hp : k0 = k
    · simp only [alookup, if_pos hp, Option.some.injEq] at h
      subst hp
      subst h
      exact List.mem_cons_self _ _
    · simp only [alookup, if_neg hp] at h
      exact List.mem_cons_of_mem _ (ih h)

theorem mem_aset {α : Type} {l : List (Nat × α)} {k : Nat} {v : α} {p : Nat × α}
    (h : p ∈ aset l k v) : p = (k, v) ∨ p ∈ l := by
  induction l with
  | nil => simp [aset] at h
  | cons q rest ih =>
    obtain ⟨k0, v0⟩ := q
    by_cases hq : k0 = k
    · simp only [aset, if_pos hq, List.mem_cons] at h
      rcases h with h | h
      · exact Or.inl h
      · exact Or.inr (List.mem_cons_of_mem _ h)
    · simp only [aset, if_neg hq, List.mem_cons] at h
      rcases h with h | h
      · exact Or.inr (by simp [h])
      · rcases ih h with h' | h'
        · exact Or.inl h'
        · exact Or.inr (List.mem_cons_of_mem _ h')

theorem keys_aset {α : Type} (l : List (Nat × α)) (k : Nat) (v : α) :
    (aset l k v).map Prod.fst = l.map Prod.fst := by
  induction l with
  | nil => rfl
  | cons p rest ih =>
    obtain ⟨k0, v0⟩ := p
    by_cases hp : k0 = k
    · simp [aset, hp]
    · simp [aset, hp, ih]

theorem alookup_none_iff {α : Type} (l : List (Nat × α)) (k : Nat) :
    alookup l k = none ↔ k ∉ l.map Prod.fst := by
  induction l with
  | nil => simp [alookup]
  | cons p rest ih =>
    obtain ⟨k0, v0⟩ := p
    by_cases hp : k0 = k
    · subst hp
      simp [alookup]
    · simp only [alookup, if_neg hp, List.map_cons, List.mem_cons]
      rw [ih]
      constructor
      · intro h hh
        rcases hh with hh | hh
        · exact hp hh.symm
        · exact h hh
      · intro h hh
        exact h (Or.inr hh)

/-! ### Engine helper lemmas -/

theorem ensure_transactions (e : PaymentsEngine) (c : Nat) :
    (e.ensure_account_exists c).transactions = e.transactions := by
  unfold PaymentsEngine.ensure_account_exists
  split <;> rfl

theorem ensure_panicked (e : PaymentsEngine) (c : Nat) :
    (e.ensure_account_exists c).panicked = e.panicked := by
  unfold PaymentsEngine.ensure_account_exists
  split <;> rfl

theorem ensure_lookup_self (e : PaymentsEngine) (c : Nat) :
    alookup (e.ensure_account_exists c).accounts c =
      some ((alookup e.accounts c).getD (ClientAccount.new c)) := by
  unfold PaymentsEngine.ensure_account_exists
  cases hl : alookup e.accounts c with
  | some a => simp [hl]
  | none =>
    simp only [hl, Option.isSome_none, Bool.false_eq_true, if_false, Option.getD_none]
    rw [alookup_append_right _ _ _ hl]
    simp [alookup]

theorem ensure_lookup_of_isSome (e : PaymentsEngine) (c c' : Nat)
    (h : (alookup e.accounts c').isSome) :
    alookup (e.ensure_account_exists c).accounts c' = alookup e.accounts c' := by
  unfold PaymentsEngine.ensure_account_exists
  split
  · rfl
  · exact alookup_append_left _ _ _ h

/-! ### Account mutator lemmas -/

theorem IsMutation.client_eq {a a' : ClientAccount} (h : IsMutation a a') :
    a'.client = a.client := by
  obtain ⟨x, h⟩ := h
  rcases h with h | h | h | h | h <;> subst h <;>
    simp only [ClientAccount.deposit, ClientAccount.withdraw, ClientAccount.hold,
      ClientAccount.release, ClientAccount.chargeback] <;>
    (repeat' split) <;> rfl

theorem IsMutation.balance {a a' : ClientAccount} (h : IsMutation a a')
    (hb : a.total = a.available + a.held) : a'.total = a'.available + a'.held := by
  obtain ⟨x, h⟩ := h
  rcases h with h | h | h | h | h <;> subst h <;>
    simp only [ClientAccount.deposit, ClientAccount.withdraw, ClientAccount.hold,
      ClientAccount.release, ClientAccount.chargeback] <;>
    (repeat' split) <;> simp <;> omega

theorem locked_mutators (a : ClientAccount) (x : Int) (h : a.locked = true) :
    a.deposit x = (false, a) ∧ a.withdraw x = (false, a) ∧ a.hold x = (false, a) ∧
      a.release x = (false, a) ∧ a.chargeback x = (false, a) := by
  simp [ClientAccount.deposit, ClientAccount.withdraw, ClientAccount.hold,
    ClientAccount.release, ClientAccount.chargeback, h]

/-! ### The shape of one dispatch step on the account map -/

theorem process_transaction_accounts (e : PaymentsEngine) (tx : ParsedTransaction) :
    ∃ base : List (Nat × ClientAccount),
      (base = e.accounts ∨ base = (e.ensure_account_exists tx.client).accounts) ∧
      ((e.process_transaction tx).accounts = base ∨
        ∃ a a', alookup base tx.client = some a ∧ a.locked = false ∧ IsMutation a a' ∧
          (e.process_transaction tx).accounts = aset base tx.client a') := by
  obtain ⟨t, c, kind⟩ := tx
  cases kind with
  | deposit amt =>
    refine ⟨(e.ensure_account_exists c).accounts, Or.inr rfl, ?_⟩
    simp only [PaymentsEngine.process_transaction]
    cases hl : alookup (e.ensure_account_exists c).accounts c with
    | none => left; simp [hl]
    | some a =>
      by_cases hlock : a.is_locked
      · left; simp [hl, hlock]
      · simp only [hl, hlock, Bool.false_eq_true, if_false]
        unfold PaymentsEngine.process_deposit
        by_cases hdup : (alookup (e.ensure_account_exists c).transactions t).isSome
        · left; simp [hdup]
        · simp only [hdup, Bool.false_eq_true, if_false, hl]
          right
          refine ⟨a, (a.deposit amt).2, rfl, ?_, ⟨amt, Or.inl rfl⟩, ?_⟩
          · simpa [ClientAccount.is_locked] using hlock
          · by_cases hs : (a.deposit amt).1 <;> simp [hs]
  | withdrawal amt =>
    refine ⟨(e.ensure_account_exists c).accounts, Or.inr rfl, ?_⟩
    simp only [PaymentsEngine.process_transaction]
    cases hl : alookup (e.ensure_account_exists c).accounts c with
    | none => left; simp [hl]
    | some a =>
      by_cases hlock : a.is_locked
      · left; simp [hl, hlock]
      · simp only [hl, hlock, Bool.false_eq_true, if_false]
        unfold PaymentsEngine.process_withdrawal
        by_cases hdup : (alookup (e.ensure_account_exists c).transactions t).isSome
        · left; simp [hdup]
        · simp only [hdup, Bool.false_eq_true, if_false, hl]
          right
          refine ⟨a, (a.withdraw amt).2, rfl, ?_, ⟨amt, Or.inr (Or.inl rfl)⟩, rfl⟩
          simpa [ClientAccount.is_locked] using hlock
  | dispute =>
    refine ⟨e.accounts, Or.inl rfl, ?_⟩
    simp only [PaymentsEngine.process_transaction]
    by_cases hlock : e.is_account_locked c
    · left; simp [hlock]
    · simp only [hlock, Bool.false_eq_true, if_false]
      unfold PaymentsEngine.process_dispute
      cases ht : alookup e.transactions t with
      | none => left; simp
      | some st =>
        by_cases hc : st.client ≠ c
        · left; simp [hc]
        · simp only [hc, if_false]
          by_cases hd : st.under_dispute
          · left; simp [hd]
          · simp only [hd, Bool.false_eq_true, if_false]
            cases hl : alookup e.accounts c with
            | none => left; simp [hl]
            | some a =>
              simp only [hl]
              right
              refine ⟨a, (a.hold st.amount).2, rfl, ?_, ⟨st.amount, Or.inr (Or.inr (Or.inl rfl))⟩, rfl⟩
              unfold PaymentsEngine.is_account_locked at hlock
              simp [hl, ClientAccount.is_locked] at hlock
              exact hlock
  | resolve =>
    refine ⟨e.accounts, Or.inl rfl, ?_⟩
    simp only [PaymentsEngine.process_transaction]
    by_cases hlock : e.is_account_locked c
    · left; simp [hlock]
    · simp only [hlock, Bool.false_eq_true, if_false]
      unfold PaymentsEngine.process_resolve
      cases ht : alookup e.transactions t with
      | none => left; simp
      | some st =>
        by_cases hc : st.client ≠ c
        · left; simp [hc]
        · simp only [hc, if_false]
          by_cases hd : st.under_dispute
          · simp only [hd, Bool.not_true, Bool.false_eq_true, if_false]
            cases hl : alookup e.accounts c with
            | none => left; simp [hl]
            | some a =>
              simp only [hl]
              right
              refine ⟨a, (a.release st.amount).2, rfl, ?_,
                ⟨st.amount, Or.inr (Or.inr (Or.inr (Or.inl rfl)))⟩, rfl⟩
              unfold PaymentsEngine.is_account_locked at hlock
              simp [hl, ClientAccount.is_locked] at hlock
              exact hlock
          · left
            simp [hd]
  | chargeback =>
    refine ⟨e.accounts, Or.inl rfl, ?_⟩
    simp only [PaymentsEngine.process_transaction]
    by_cases hlock : e.is_account_locked c
    · left; simp [hlock]
    · simp only [hlock, Bool.false_eq_true, if_false]
      unfold PaymentsEngine.process_chargeback
      cases ht : alookup e.transactions t with
      | none => left; simp
      | some st =>
        by_cases hc : st.client ≠ c
        · left; simp [hc]
        · simp only [hc, if_false]
          by_cases hd : st.under_dispute
          · simp only [hd, Bool.not_true, Bool.false_eq_true, if_false]
            cases hl : alookup e.accounts c with
            | none => left; simp [hl]
            | some a =>
              simp only [hl]
              right
              refine ⟨a, (a.chargeback st.amount).2, rfl, ?_,
                ⟨st.amount, Or.inr (Or.inr (Or.inr (Or.inr rfl)))⟩, rfl⟩
              unfold PaymentsEngine.is_account_locked at hlock
              simp [hl, ClientAccount.is_locked] at hlock
              exact hlock
          · left
            simp [hd]

theorem mem_ensure {e : PaymentsEngine} {c : Nat} {p : Nat × ClientAccount}
    (h : p ∈ (e.ensure_account_exists c).accounts) :
    p ∈ e.accounts ∨ p = (c, ClientAccount.new c) := by
  unfold PaymentsEngine.ensure_account_exists at h
  split at h
  · exact Or.inl h
  · simp only [List.mem_append, List.mem_singleton] at h
    exact h

/-- Any per-account predicate holding for fresh accounts and preserved by
the five mutators is preserved by one step of the processing loop. -/
theorem accounts_pred_step (P : ClientAccount → Prop)
    (hnew : ∀ c, P (ClientAccount.new c))
    (hmut : ∀ a a', IsMutation a a' → P a → P a')
    (e : PaymentsEngine) (it : CsvItem) (h : ∀ p ∈ e.accounts, P p.2) :
    ∀ p ∈ (csvStep e it).accounts, P p.2 := by
  cases it with
  | err f => exact h
  | ok r =>
    cases hp : r.parse with
    | none => simpa [csvStep, hp] using h
    | some tx =>
      have hstep : csvStep e (CsvItem.ok r) = e.process_transaction tx := by
        simp [csvStep, hp]
      rw [hstep]
      obtain ⟨base, hbase, hres⟩ := process_transaction_accounts e tx
      have hbaseP : ∀ p ∈ base, P p.2 := by
        rcases hbase with hb | hb
        · rw [hb]; exact h
        · rw [hb]
          intro p hpmem
          rcases mem_ensure hpmem with hm | hm
          · exact h p hm
          · rw [hm]; exact hnew tx.client
      rcases hres with hr | ⟨a, a', hla, _, hmuta, hr⟩
      · rw [hr]; exact hbaseP
      · rw [hr]
        intro p hpmem
        rcases mem_aset hpmem with hm | hm
        · rw [hm]
          exact hmut a a' hmuta (hbaseP _ (alookup_mem hla))
        · exact hbaseP p hm

/-- A locked account is never modified (nor removed) by a step of the
processing loop. -/
theorem locked_account_step (e : PaymentsEngine) (c : Nat) (a : ClientAccount)
    (hl : alookup e.accounts c = some a) (hlk : a.locked = true) (it : CsvItem) :
    alookup (csvStep e it).accounts c = some a := by
  cases it with
  | err f => exact hl
  | ok r =>
    cases hp : r.parse with
    | none => simpa [csvStep, hp] using hl
    | some tx =>
      have hstep : csvStep e (CsvItem.ok r) = e.process_transaction tx := by
        simp [csvStep, hp]
      rw [hstep]
      obtain ⟨base, hbase, hres⟩ := process_transaction_accounts e tx
      have hbasel : alookup base c = some a := by
        rcases hbase with hb | hb
        · rw [hb]; exact hl
        · rw [hb]
          rw [ensure_lookup_of_isSome e tx.client c (by simp [hl])]
          exact hl
      rcases hres with hr | ⟨a0, a', hla0, hlk0, _, hr⟩
      · rw [hr]; exact hbasel
      · rw [hr]
        by_cases hc : tx.client = c
        · subst hc
          rw [hbasel] at hla0
          cases hla0
          rw [hlk] at hlk0
          cases hlk0
        · rw [alookup_aset_ne _ _ _ _ hc]
          exact hbasel

/-- An account present in the map stays present across a step. -/
theorem accounts_isSome_step (e : PaymentsEngine) (c : Nat) (it : CsvItem)
    (h : (alookup e.accounts c).isSome) :
    (alookup (csvStep e it).accounts c).isSome := by
  cases it with
  | err f => exact h
  | ok r =>
    cases hp : r.parse with
    | none => simpa [csvStep, hp] using h
    | some tx =>
      have hstep : csvStep e (CsvItem.ok r) = e.process_transaction tx := by
        simp [csvStep, hp]
      rw [hstep]
      obtain ⟨base, hbase, hres⟩ := process_transaction_accounts e tx
      have hbaseS : (alookup base c).isSome := by
        rcases hbase with hb | hb
        · rw [hb]; exact h
        · rw [hb, ensure_lookup_of_isSome e tx.client c h]
          exact h
      rcases hres with hr | ⟨a0, a', _, _, _, hr⟩
      · rw [hr]; exact hbaseS
      · rw [hr, alookup_aset_isSome]
        exact hbaseS

theorem accounts_pred_stream (P : ClientAccount → Prop)
    (hnew : ∀ c, P (ClientAccount.new c))
    (hmut : ∀ a a', IsMutation a a' → P a → P a') :
    ∀ (items : List CsvItem) (e : PaymentsEngine), (∀ p ∈ e.accounts, P p.2) →
      ∀ p ∈ (items.foldl csvStep e).accounts, P p.2 := by
  intro items
  induction items with
  | nil => intro e h; exact h
  | cons it rest ih =>
    intro e h
    simp only [List.foldl_cons]
    exact ih (csvStep e it) (accounts_pred_step P hnew hmut e it h)

theorem locked_account_stream :
    ∀ (items : List CsvItem) (e : PaymentsEngine) (c : Nat) (a : ClientAccount),
      alookup e.accounts c = some a → a.locked = true →
      alookup ((items.foldl csvStep e)).accounts c = some a := by
  intro items
  induction items with
  | nil => intro e c a hl _; exact hl
  | cons it rest ih =>
    intro e c a hl hlk
    simp only [List.foldl_cons]
    exact ih (csvStep e it) c a (locked_account_step e c a hl hlk it) hlk

/-! ### Claim C1 -/

/-- C1: for every account reachable by processing any record stream from
a fresh engine, and after every single account mutator call (deposit,
withdraw, hold, release, chargeback) on an account satisfying the
invariant, the equation `total == available + held` holds. -/
theorem c1_balance_invariant :
    (∀ items : List CsvItem, ∀ p ∈ (processCsvState items).accounts,
       p.2.total = p.2.available + p.2.held) ∧
    (∀ (a : ClientAccount) (x : Int), a.total = a.available + a.held →
       ((a.deposit x).2.total = (a.deposit x).2.available + (a.deposit x).2.held) ∧
       ((a.withdraw x).2.total = (a.withdraw x).2.available + (a.withdraw x).2.held) ∧
       ((a.hold x).2.total = (a.hold x).2.available + (a.hold x).2.held) ∧
       ((a.release x).2.total = (a.release x).2.available + (a.release x).2.held) ∧
       ((a.chargeback x).2.total = (a.chargeback x).2.available + (a.chargeback x).2.held)) := by
  constructor
  · intro items
    exact accounts_pred_stream (fun a => a.total = a.available + a.held)
      (fun c => by simp [ClientAccount.new])
      (fun a a' hm hb => hm.balance hb)
      items PaymentsEngine.new (by simp [PaymentsEngine.new])
  · intro a x hb
    refine ⟨?_, ?_, ?_, ?_, ?_⟩
    · exact (IsMutation.balance ⟨x, Or.inl rfl⟩ hb)
    · exact (IsMutation.balance ⟨x, Or.inr (Or.inl rfl)⟩ hb)
    · exact (IsMutation.balance ⟨x, Or.inr (Or.inr (Or.inl rfl))⟩ hb)
    · exact (IsMutation.balance ⟨x, Or.inr (Or.inr (Or.inr (Or.inl rfl)))⟩ hb)
    · exact (IsMutation.balance ⟨x, Or.inr (Or.inr (Or.inr (Or.inr rfl)))⟩ hb)

/-- Witness for C1 at a concrete account and amount. -/
theorem c1_balance_invariant_witness :
    ((ClientAccount.new 1).deposit 5).2.total =
      ((ClientAccount.new 1).deposit 5).2.available + ((ClientAccount.new 1).deposit 5).2.held :=
  (c1_balance_invariant.2 (ClientAccount.new 1) 5 (by decide)).1

/-! ### Claim C2 -/

/-- C2: once an account's locked flag is true, every account mutator
returns false and leaves the account unchanged, and the engine drops all
subsequent records addressed to that account: after processing any
further record stream the account is exactly as it was. -/
theorem c2_locked_account_frozen :
    (∀ (a : ClientAccount) (x : Int), a.locked = true →
       a.deposit x = (false, a) ∧ a.withdraw x = (false, a) ∧ a.hold x = (false, a) ∧
       a.release x = (false, a) ∧ a.chargeback x = (false, a)) ∧
    (∀ (e : PaymentsEngine) (c : Nat) (a : ClientAccount),
       alookup e.accounts c = some a → a.locked = true →
       ∀ items : List CsvItem, alookup (e.process_csv items).2.accounts c = some a) := by
  constructor
  · exact locked_mutators
  · intro e c a hl hlk items
    exact locked_account_stream items e c a hl hlk

/-- Witness for C2: a locked account survives a deposit, a withdrawal, a
dispute and a chargeback addressed to it, unchanged. -/
theorem c2_locked_account_frozen_witness :
    alookup ((PaymentsEngine.mk [(1, ClientAccount.mk 1 5 0 5 true)]
        [(7, StoredTransaction.mk 7 1 5 false)] false).process_csv
      [CsvItem.ok (TransactionRecord.mk "deposit" 1 8 (some "3.0")),
       CsvItem.ok (TransactionRecord.mk "withdrawal" 1 9 (some "1.0")),
       CsvItem.ok (TransactionRecord.mk "dispute" 1 7 none),
       CsvItem.ok (TransactionRecord.mk "chargeback" 1 7 none)]).2.accounts 1 =
      some (ClientAccount.mk 1 5 0 5 true) :=
  c2_locked_account_frozen.2 _ 1 _ (by decide) (by decide) _

/-! ### Claim C5 -/

/-- C5: withdraw succeeds iff the account is not locked and
`available >= amount`; on success it decreases available and total by
exactly the amount (withdrawing exactly `available` leaves it 0), and on
failure the account is completely unchanged. -/
theorem c5_withdraw_spec (a : ClientAccount) (x : Int) :
    ((a.withdraw x).1 = true ↔ (a.locked = false ∧ x ≤ a.available)) ∧
    ((a.withdraw x).1 = true →
      (a.withdraw x).2 = { a with available := a.available - x, total := a.total - x }) ∧
    ((a.withdraw x).1 = false → (a.withdraw x).2 = a) ∧
    (a.locked = false → (a.withdraw a.available).2.available = 0) := by
  refine ⟨?_, ?_, ?_, ?_⟩
  · unfold ClientAccount.withdraw
    by_cases hlk : a.locked <;> by_cases hav : a.available < x
    all_goals simp [hlk, hav]
    all_goals omega
  · unfold ClientAccount.withdraw
    by_cases hlk : a.locked <;> by_cases hav : a.available < x <;> simp [hlk, hav]
  · unfold ClientAccount.withdraw
    by_cases hlk : a.locked <;> by_cases hav : a.available < x <;> simp [hlk, hav]
  · intro hlk
    unfold ClientAccount.withdraw
    simp [hlk]

/-- Witness for C5 at concrete accounts. -/
theorem c5_withdraw_spec_witness :
    ((ClientAccount.mk 1 30000 0 30000 false).withdraw 30000).1 = true ∧
    ((ClientAccount.mk 1 30000 0 30000 false).withdraw 30000).2.available = 0 ∧
    ((ClientAccount.mk 1 30000 0 30000 false).withdraw 30001).2 =
      ClientAccount.mk 1 30000 0 30000 false :=
  ⟨(c5_withdraw_spec (ClientAccount.mk 1 30000 0 30000 false) 30000).1.mpr (by decide),
   (c5_withdraw_spec (ClientAccount.mk 1 30000 0 30000 false) 30000).2.2.2 (by decide),
   (c5_withdraw_spec (ClientAccount.mk 1 30000 0 30000 false) 30001).2.2.1 (by decide)⟩

/-! ### Claim C10 -/

/-- C10: deposit and withdrawal records with a strictly negative amount
pass amount validation and are dispatched; for an unlocked account a
deposit of a negative amount decreases available and total by its
absolute value, and a withdrawal of a negative amount succeeds whenever
`available >= amount` and increases available and total by its absolute
value. -/
theorem c10_negative_amounts :
    (∀ (c t : Nat) (s : String) (x : Int), x < 0 →
       (TransactionRecord.mk "deposit" c t (some s)).parse_amount = some x →
       (TransactionRecord.mk "deposit" c t (some s)).parse =
         some (ParsedTransaction.mk t c (TxKind.deposit x))) ∧
    (∀ (c t : Nat) (s : String) (x : Int), x < 0 →
       (TransactionRecord.mk "withdrawal" c t (some s)).parse_amount = some x →
       (TransactionRecord.mk "withdrawal" c t (some s)).parse =
         some (ParsedTransaction.mk t c (TxKind.withdrawal x))) ∧
    (∀ (a : ClientAccount) (x : Int), a.locked = false → x < 0 →
       (a.deposit x).1 = true ∧ (a.deposit x).2.available = a.available - (x.natAbs : Int) ∧
       (a.deposit x).2.total = a.total - (x.natAbs : Int)) ∧
    (∀ (a : ClientAccount) (x : Int), a.locked = false → x < 0 → x ≤ a.available →
       (a.withdraw x).1 = true ∧ (a.withdraw x).2.available = a.available + (x.natAbs : Int) ∧
       (a.withdraw x).2.total = a.total + (x.natAbs : Int)) := by
  have hdep : strToLower (strTrim "deposit") = "deposit" := by decide
  have hwd : strToLower (strTrim "withdrawal") = "withdrawal" := by decide
  refine ⟨?_, ?_, ?_, ?_⟩
  · intro c t s x _ hpa
    simp [TransactionRecord.parse, hdep, hpa]
  · intro c t s x _ hpa
    simp [TransactionRecord.parse, hwd, hpa]
  · intro a x hlk hx
    have habs : ((x.natAbs : Int)) = -x := by omega
    refine ⟨?_, ?_, ?_⟩ <;> (try rw [habs]) <;> simp [ClientAccount.deposit, hlk]
  · intro a x hlk hx hle
    have habs : ((x.natAbs : Int)) = -x := by omega
    refine ⟨?_, ?_, ?_⟩ <;> (try rw [habs]) <;>
      simp [ClientAccount.withdraw, hlk, not_lt.mpr hle]
    all_goals omega

/-- Witness for C10: the literal "-5.0" parses to a negative amount, is
dispatched as a deposit, and decreases an unlocked account. -/
theorem c10_negative_amounts_witness :
    (TransactionRecord.mk "deposit" 1 1 (some "-5.0")).parse =
      some (ParsedTransaction.mk 1 1 (TxKind.deposit (-50000))) ∧
    ((ClientAccount.mk 1 0 0 0 false).deposit (-50000)).2.available = -50000 := by
  constructor
  · exact c10_negative_amounts.1 1 1 "-5.0" (-50000) (by decide) (by decide)
  · have h := (c10_negative_amounts.2.2.1 (ClientAccount.mk 1 0 0 0 false) (-50000)
      (by decide) (by decide)).2.1
    simpa using h

/-! ### Claim C4 -/

/-- C4 counterexample: a withdrawal with TxId 5 followed by a deposit
with the same TxId 5; the deposit is applied (available goes from 0 to
7.0000), so the second record sharing the first record's TxId is not
suppressed. -/
theorem c4_counterexample :
    availableOf (processCsvState
      [CsvItem.ok (TransactionRecord.mk "withdrawal" 1 5 (some "0")),
       CsvItem.ok (TransactionRecord.mk "deposit" 1 5 (some "7.0"))]) 1 = 70000 ∧
    availableOf (processCsvState
      [CsvItem.ok (TransactionRecord.mk "withdrawal" 1 5 (some "0"))]) 1 = 0 := by
  constructor <;> decide

/-- C4 (amended): a deposit or withdrawal whose TxId is already present
in the transaction index (i.e. some earlier deposit with that TxId was
successfully applied and stored) is suppressed: processing it is exactly
`ensure_account_exists`, which leaves the transaction index unchanged and
every existing account's entry unchanged. -/
theorem c4_stored_txid_suppression (e : PaymentsEngine) (t c : Nat) (x : Int)
    (hdup : (alookup e.transactions t).isSome) :
    (e.process_transaction (ParsedTransaction.mk t c (TxKind.deposit x)) =
        e.ensure_account_exists c ∧
     e.process_transaction (ParsedTransaction.mk t c (TxKind.withdrawal x)) =
        e.ensure_account_exists c) ∧
    (e.ensure_account_exists c).transactions = e.transactions ∧
    ∀ c', (alookup e.accounts c').isSome →
      alookup (e.ensure_account_exists c).accounts c' = alookup e.accounts c' := by
  refine ⟨⟨?_, ?_⟩, ensure_transactions e c, fun c' h => ensure_lookup_of_isSome e c c' h⟩
  · simp only [PaymentsEngine.process_transaction]
    rw [ensure_lookup_self]
    by_cases hlk : ((alookup e.accounts c).getD (ClientAccount.new c)).is_locked
    · simp [hlk]
    · simp only [hlk, Bool.false_eq_true, if_false]
      unfold PaymentsEngine.process_deposit
      rw [ensure_transactions]
      simp [hdup]
  · simp only [PaymentsEngine.process_transaction]
    rw [ensure_lookup_self]
    by_cases hlk : ((alookup e.accounts c).getD (ClientAccount.new c)).is_locked
    · simp [hlk]
    · simp only [hlk, Bool.false_eq_true, if_false]
      unfold PaymentsEngine.process_withdrawal
      rw [ensure_transactions]
      simp [hdup]

/-- Witness for the amended C4 at a concrete engine holding a stored
deposit with TxId 5. -/
theorem c4_stored_txid_suppression_witness :
    (PaymentsEngine.mk [(1, ClientAccount.mk 1 10000 0 10000 false)]
        [(5, StoredTransaction.mk 5 1 10000 false)] false).process_transaction
      (ParsedTransaction.mk 5 1 (TxKind.deposit 30000)) =
    (PaymentsEngine.mk [(1, ClientAccount.mk 1 10000 0 10000 false)]
        [(5, StoredTransaction.mk 5 1 10000 false)] false).ensure_account_exists 1 :=
  (c4_stored_txid_suppression (PaymentsEngine.mk [(1, ClientAccount.mk 1 10000 0 10000 false)]
      [(5, StoredTransaction.mk 5 1 10000 false)] false) 5 1 30000 (by decide)).1.1

/-! ### Claim C7 -/

/-- C7: `process_csv` returns success for every input, including when the
record source yields an I/O fault: the error arm of its loop logs and
skips every failed item and the function ends with an unconditional
`Ok(())`, so a read-side I/O fault is never surfaced to the caller. -/
theorem c7_process_csv_swallows_io_fault :
    (∀ (e : PaymentsEngine) (items : List CsvItem), (e.process_csv items).1 = Except.ok ()) ∧
    (PaymentsEngine.new.process_csv [CsvItem.err true]).1 = Except.ok () :=
  ⟨fun _ _ => rfl, rfl⟩

/-! ### Claim C9 -/

theorem ensure_isSome (e : PaymentsEngine) (c c' : Nat)
    (h : (alookup e.accounts c').isSome) :
    (alookup (e.ensure_account_exists c).accounts c').isSome := by
  rw [ensure_lookup_of_isSome e c c' h]
  exact h

theorem engineInv_ensure {e : PaymentsEngine} (h : EngineInv e) (c : Nat) :
    EngineInv (e.ensure_account_exists c) := by
  refine ⟨by rw [ensure_panicked]; exact h.1, ?_⟩
  intro p hp
  rw [ensure_transactions] at hp
  exact ensure_isSome e c _ (h.2 p hp)

theorem engineInv_step {e : PaymentsEngine} (h : EngineInv e) (it : CsvItem) :
    EngineInv (csvStep e it) := by
  cases it with
  | err f => exact h
  | ok r =>
    cases hp : r.parse with
    | none => simpa [csvStep, hp] using h
    | some tx =>
      have hstep : csvStep e (CsvItem.ok r) = e.process_transaction tx := by
        simp [csvStep, hp]
      rw [hstep]
      obtain ⟨t, c, kind⟩ := tx
      cases kind with
      | deposit amt =>
        have h1 : EngineInv (e.ensure_account_exists c) := engineInv_ensure h c
        simp only [PaymentsEngine.process_transaction]
        rw [ensure_lookup_self]
        by_cases hlk : ((alookup e.accounts c).getD (ClientAccount.new c)).is_locked
        · simpa [hlk] using h1
        · simp only [hlk, Bool.false_eq_true, if_false]
          unfold PaymentsEngine.process_deposit
          by_cases hdup : (alookup (e.ensure_account_exists c).transactions t).isSome
          · simpa [hdup] using h1
          · simp only [hdup, Bool.false_eq_true, if_false]
            rw [ensure_lookup_self]
            have hsome : (alookup (e.ensure_account_exists c).accounts c).isSome := by
              rw [ensure_lookup_self]; rfl
            by_cases hs : (((alookup e.accounts c).getD (ClientAccount.new c)).deposit amt).1
            · simp only [hs, if_true]
              refine ⟨h1.1, ?_⟩
              intro p hpmem
              simp only [List.mem_append, List.mem_singleton] at hpmem
              rcases hpmem with hm | hm
              · rw [alookup_aset_isSome]
                exact h1.2 p hm
              · rw [hm]
                simp only [StoredTransaction.from_deposit]
                rw [alookup_aset_isSome]
                simpa using hsome
            · simp only [hs, Bool.false_eq_true, if_false]
              refine ⟨h1.1, ?_⟩
              intro p hpmem
              rw [alookup_aset_isSome]
              exact h1.2 p hpmem
      | withdrawal amt =>
        have h1 : EngineInv (e.ensure_account_exists c) := engineInv_ensure h c
        simp only [PaymentsEngine.process_transaction]
        rw [ensure_lookup_self]
        by_cases hlk : ((alookup e.accounts c).getD (ClientAccount.new c)).is_locked
        · simpa [hlk] using h1
        · simp only [hlk, Bool.false_eq_true, if_false]
          unfold PaymentsEngine.process_withdrawal
          by_cases hdup : (alookup (e.ensure_account_exists c).transactions t).isSome
          · simpa [hdup] using h1
          · simp only [hdup, Bool.false_eq_true, if_false]
            rw [ensure_lookup_self]
            refine ⟨h1.1, ?_⟩
            intro p hpmem
            rw [alookup_aset_isSome]
            exact h1.2 p hpmem
      | dispute =>
        simp only [PaymentsEngine.process_transaction]
        by_cases hlk : e.is_account_locked c
        · simpa [hlk] using h
        · simp only [hlk, Bool.false_eq_true, if_false]
          unfold PaymentsEngine.process_dispute
          cases ht : alookup e.transactions t with
          | none => exact h
          | some st =>
            by_cases hc : st.client ≠ c
            · simpa [hc] using h
            · simp only [hc, if_false]
              push_neg at hc
              by_cases hd : st.under_dispute
              · simpa [hd] using h
              · simp only [hd, Bool.false_eq_true, if_false]
                have hsome : (alookup e.accounts c).isSome = true := by
                  rw [← hc]
                  exact h.2 (t, st) (alookup_mem ht)
                cases hacc : alookup e.accounts c with
                | none => rw [hacc] at hsome; simp at hsome
                | some account =>
                  simp only [hacc]
                  refine ⟨h.1, ?_⟩
                  intro p hpmem
                  rw [alookup_aset_isSome]
                  rcases mem_aset hpmem with hm | hm
                  · rw [hm]
                    rw [← hc] at hsome
                    simpa using hsome
                  · exact h.2 p hm
      | resolve =>
        simp only [PaymentsEngine.process_transaction]
        by_cases hlk : e.is_account_locked c
        · simpa [hlk] using h
        · simp only [hlk, Bool.false_eq_true, if_false]
          unfold PaymentsEngine.process_resolve
          cases ht : alookup e.transactions t with
          | none => exact h
          | some st =>
            by_cases hc : st.client ≠ c
            · simpa [hc] using h
            · simp only [hc, if_false]
              push_neg at hc
              by_cases hd : st.under_dispute
              · simp only [hd, Bool.not_true, Bool.false_eq_true, if_false]
                have hsome : (alookup e.accounts c).isSome = true := by
                  rw [← hc]
                  exact h.2 (t, st) (alookup_mem ht)
                cases hacc : alookup e.accounts c with
                | none => rw [hacc] at hsome; simp at hsome
                | some account =>
                  simp only [hacc]
                  refine ⟨h.1, ?_⟩
                  intro p hpmem
                  rw [alookup_aset_isSome]
                  rcases mem_aset hpmem with hm | hm
                  · rw [hm]
                    rw [← hc] at hsome
                    simpa using hsome
                  · exact h.2 p hm
              · simpa [hd] using h
      | chargeback =>
        simp only [PaymentsEngine.process_transaction]
        by_cases hlk : e.is_account_locked c
        · simpa [hlk] using h
        · simp only [hlk, Bool.false_eq_true, if_false]
          unfold PaymentsEngine.process_chargeback
          cases ht : alookup e.transactions t with
          | none => exact h
          | some st =>
            by_cases hc : st.client ≠ c
            · simpa [hc] using h
            · simp only [hc, if_false]
              push_neg at hc
              by_cases hd : st.under_dispute
              · simp only [hd, Bool.not_true, Bool.false_eq_true, if_false]
                have hsome : (alookup e.accounts c).isSome = true := by
                  rw [← hc]
                  exact h.2 (t, st) (alookup_mem ht)
                cases hacc : alookup e.accounts c with
                | none => rw [hacc] at hsome; simp at hsome
                | some account =>
                  simp only [hacc]
                  refine ⟨h.1, ?_⟩
                  intro p hpmem
                  rw [alookup_aset_isSome]
                  rcases mem_aset hpmem with hm | hm
                  · rw [hm]
                    rw [← hc] at hsome
                    simpa using hsome
                  · exact h.2 p hm
              · simpa [hd] using h

theorem engineInv_stream :
    ∀ (items : List CsvItem) (e : PaymentsEngine), EngineInv e →
      EngineInv (items.foldl csvStep e) := by
  intro items
  induction items with
  | nil => intro e h; exact h
  | cons it rest ih =>
    intro e h
    simp only [List.foldl_cons]
    exact ih (csvStep e it) (engineInv_step h it)

/-- C9: in every engine state reachable from a fresh engine, every
stored transaction's owning client has an account in the account map,
and none of the `expect`-guarded account lookups has failed (the
`panicked` flag stays false). -/
theorem c9_stored_tx_account_exists (items : List CsvItem) :
    (processCsvState items).panicked = false ∧
    ∀ p ∈ (processCsvState items).transactions,
      (alookup (processCsvState items).accounts p.2.client).isSome = true :=
  engineInv_stream items PaymentsEngine.new ⟨rfl, by simp [PaymentsEngine.new, alookup]⟩

/-! ### Claim C6 -/

/-- C6: if a dispute on a stored transaction is accepted (the
transaction is in the index, its owner matches, it is not already under
dispute, the account exists and is not locked) and is immediately
followed by a resolve on the same transaction by the same client, the
account returns exactly to its state from before the dispute and the
transaction's `under_dispute` flag returns to false. -/
theorem c6_dispute_resolve_roundtrip (e : PaymentsEngine) (t c : Nat)
    (st : StoredTransaction) (acc : ClientAccount)
    (hst : alookup e.transactions t = some st) (hc : st.client = c)
    (hd : st.under_dispute = false)
    (hacc : alookup e.accounts c = some acc) (hlk : acc.locked = false) :
    alookup ((e.process_transaction (ParsedTransaction.mk t c TxKind.dispute)).process_transaction
      (ParsedTransaction.mk t c TxKind.resolve)).accounts c = some acc ∧
    alookup ((e.process_transaction (ParsedTransaction.mk t c TxKind.dispute)).process_transaction
      (ParsedTransaction.mk t c TxKind.resolve)).transactions t = some st := by
  obtain ⟨stt, stc, sta, std⟩ := st
  simp only at hc hd
  subst hc
  subst hd
  obtain ⟨ac, av, he, tot, lk⟩ := acc
  simp only at hlk
  subst hlk
  have hlkE : e.is_account_locked stc = false := by
    unfold PaymentsEngine.is_account_locked
    rw [hacc]
    rfl
  have h1 : e.process_transaction (ParsedTransaction.mk t stc TxKind.dispute) =
      { e with
        transactions := aset e.transactions t (StoredTransaction.mk stt stc sta true),
        accounts := aset e.accounts stc (ClientAccount.mk ac (av - sta) (he + sta) tot false) } := by
    simp only [PaymentsEngine.process_transaction, hlkE, Bool.false_eq_true, if_false]
    unfold PaymentsEngine.process_dispute
    rw [hst]
    simp only [ne_eq, not_true_eq_false, Bool.false_eq_true, if_false]
    rw [hacc]
    simp [ClientAccount.hold]
  rw [h1]
  have hacc1 : alookup (aset e.accounts stc (ClientAccount.mk ac (av - sta) (he + sta) tot false)) stc
      = some (ClientAccount.mk ac (av - sta) (he + sta) tot false) :=
    alookup_aset_self _ _ _ (by rw [hacc]; rfl)
  have hst1 : alookup (aset e.transactions t (StoredTransaction.mk stt stc sta true)) t
      = some (StoredTransaction.mk stt stc sta true) :=
    alookup_aset_self _ _ _ (by rw [hst]; rfl)
  have hlkE1 : PaymentsEngine.is_account_locked
      { e with
        transactions := aset e.transactions t (StoredTransaction.mk stt stc sta true),
        accounts := aset e.accounts stc (ClientAccount.mk ac (av - sta) (he + sta) tot false) }
      stc = false := by
    unfold PaymentsEngine.is_account_locked
    simp only
    rw [hacc1]
    rfl
  simp only [PaymentsEngine.process_transaction, hlkE1, Bool.false_eq_true, if_false]
  unfold PaymentsEngine.process_resolve
  simp only
  rw [hst1]
  simp only [ne_eq, not_true_eq_false, Bool.false_eq_true, if_false, Bool.not_true]
  rw [hacc1]
  simp only [ClientAccount.release, Bool.false_eq_true, if_false]
  constructor
  · rw [alookup_aset_self _ _ _ (by rw [hacc1]; rfl)]
    congr 1
    simp
  · rw [alookup_aset_self _ _ _ (by rw [hst1]; rfl)]

/-- Witness for C6 at a concrete engine: dispute then resolve on a
stored deposit of 10.0000 restores the account. -/
theorem c6_dispute_resolve_roundtrip_witness :
    alookup (((PaymentsEngine.mk [(1, ClientAccount.mk 1 100000 0 100000 false)]
        [(7, StoredTransaction.mk 7 1 100000 false)] false).process_transaction
      (ParsedTransaction.mk 7 1 TxKind.dispute)).process_transaction
      (ParsedTransaction.mk 7 1 TxKind.resolve)).accounts 1 =
      some (ClientAccount.mk 1 100000 0 100000 false) :=
  (c6_dispute_resolve_roundtrip
    (PaymentsEngine.mk [(1, ClientAccount.mk 1 100000 0 100000 false)]
      [(7, StoredTransaction.mk 7 1 100000 false)] false)
    7 1 (StoredTransaction.mk 7 1 100000 false) (ClientAccount.mk 1 100000 0 100000 false)
    (by decide) rfl rfl (by decide) rfl).1

/-! ### Claim C8 -/

theorem insertByClient_perm (a : ClientAccount) (l : List ClientAccount) :
    (insertByClient a l).Perm (a :: l) := by
  induction l with
  | nil => exact List.Perm.refl _
  | cons b rest ih =>
    unfold insertByClient
    split
    · exact List.Perm.refl _
    · exact (ih.cons b).trans (List.Perm.swap a b rest)

theorem sortAccounts_perm (l : List ClientAccount) : (sortAccounts l).Perm l := by
  induction l with
  | nil => exact List.Perm.refl _
  | cons a rest ih =>
    exact (insertByClient_perm a (sortAccounts rest)).trans (ih.cons a)

theorem insertByClient_sorted (a : ClientAccount) (l : List ClientAccount)
    (h : List.Pairwise (fun x y : ClientAccount => x.client ≤ y.client) l) :
    List.Pairwise (fun x y : ClientAccount => x.client ≤ y.client) (insertByClient a l) := by
  induction l with
  | nil => simp [insertByClient]
  | cons b rest ih =>
    rw [List.pairwise_cons] at h
    unfold insertByClient
    split
    · rename_i hle
      rw [List.pairwise_cons]
      constructor
      · intro x hx
        rcases List.mem_cons.mp hx with hx | hx
        · rw [hx]; exact hle
        · exact le_trans hle (h.1 x hx)
      · rw [List.pairwise_cons]
        exact h
    · rename_i hgt
      rw [List.pairwise_cons]
      constructor
      · intro x hx
        have hx' := (insertByClient_perm a rest).mem_iff.mp hx
        rcases List.mem_cons.mp hx' with hx' | hx'
        · rw [hx']; omega
        · exact h.1 x hx'
      · exact ih h.2

theorem sortAccounts_sorted (l : List ClientAccount) :
    List.Pairwise (fun x y : ClientAccount => x.client ≤ y.client) (sortAccounts l) := by
  induction l with
  | nil => simp [sortAccounts]
  | cons a rest ih => exact insertByClient_sorted a (sortAccounts rest) ih

theorem sorted_strict (l : List ClientAccount)
    (hs : List.Pairwise (fun x y : ClientAccount => x.client ≤ y.client) l)
    (hn : (l.map ClientAccount.client).Nodup) :
    List.Pairwise (fun x y : ClientAccount => x.client < y.client) l := by
  have hne : List.Pairwise (fun x y : ClientAccount => x.client ≠ y.client) l :=
    List.pairwise_map.mp hn
  exact (hs.and hne).imp fun h => lt_of_le_of_ne h.1 h.2

theorem engineWF_ensure {e : PaymentsEngine} (h : EngineWF e) (c : Nat) :
    EngineWF (e.ensure_account_exists c) := by
  unfold PaymentsEngine.ensure_account_exists
  split
  · exact h
  · rename_i hns
    have hnone : alookup e.accounts c = none := by
      cases hl : alookup e.accounts c with
      | none => rfl
      | some a => rw [hl] at hns; simp at hns
    have hnotin : c ∉ e.accounts.map Prod.fst := (alookup_none_iff _ _).mp hnone
    constructor
    · simp only [List.map_append, List.map_cons, List.map_nil]
      rw [List.nodup_append]
      refine ⟨h.1, List.nodup_singleton c, ?_⟩
      intro x hx hx'
      rw [List.mem_singleton] at hx'
      rw [hx'] at hx
      exact hnotin hx
    · intro p hp
      simp only [List.mem_append, List.mem_singleton] at hp
      rcases hp with hp | hp
      · exact h.2 p hp
      · rw [hp]; rfl

theorem engineWF_step {e : PaymentsEngine} (h : EngineWF e) (it : CsvItem) :
    EngineWF (csvStep e it) := by
  cases it with
  | err f => exact h
  | ok r =>
    cases hp : r.parse with
    | none => simpa [csvStep, hp] using h
    | some tx =>
      have hstep : csvStep e (CsvItem.ok r) = e.process_transaction tx := by
        simp [csvStep, hp]
      rw [hstep]
      obtain ⟨base, hbase, hres⟩ := process_transaction_accounts e tx
      have hbaseWF : (base.map Prod.fst).Nodup ∧ ∀ p ∈ base, p.2.client = p.1 := by
        rcases hbase with hb | hb
        · rw [hb]; exact ⟨h.1, h.2⟩
        · rw [hb]; exact ⟨(engineWF_ensure h tx.client).1, (engineWF_ensure h tx.client).2⟩
      rcases hres with hr | ⟨a, a', hla, _, hmut, hr⟩
      · exact ⟨by rw [hr]; exact hbaseWF.1, by rw [hr]; exact hbaseWF.2⟩
      · constructor
        · rw [hr, keys_aset]
          exact hbaseWF.1
        · intro p hpmem
          rw [hr] at hpmem
          rcases mem_aset hpmem with hm | hm
          · rw [hm]
            show a'.client = tx.client
            rw [hmut.client_eq]
            exact hbaseWF.2 (tx.client, a) (alookup_mem hla)
          · exact hbaseWF.2 p hm

theorem engineWF_stream :
    ∀ (items : List CsvItem) (e : PaymentsEngine), EngineWF e →
      EngineWF (items.foldl csvStep e) := by
  intro items
  induction items with
  | nil => intro e h; exact h
  | cons it rest ih =>
    intro e h
    simp only [List.foldl_cons]
    exact ih (csvStep e it) (engineWF_step h it)

theorem digitChar_isDigit : ∀ d : Nat, d < 10 → (Nat.digitChar d).isDigit = true := by decide

/-- C8: the snapshot always begins with the header row (even with zero
accounts), lists every account exactly once sorted ascending by client
id (strictly, given the key uniqueness a `HashMap` guarantees), formats
each monetary field with a dot followed by exactly four decimal digits,
renders `locked` as the lowercase literals, and every engine state
reachable from a fresh engine satisfies the required well-formedness. -/
theorem c8_write_output (e : PaymentsEngine) (hWF : EngineWF e) :
    e.write_output = ["client", "available", "held", "total", "locked"] ::
      (sortAccounts (e.accounts.map Prod.snd)).map accountRow ∧
    e.write_output.head? = some ["client", "available", "held", "total", "locked"] ∧
    (sortAccounts (e.accounts.map Prod.snd)).Perm (e.accounts.map Prod.snd) ∧
    List.Pairwise (fun x y : ClientAccount => x.client < y.client)
      (sortAccounts (e.accounts.map Prod.snd)) ∧
    (∀ a ∈ sortAccounts (e.accounts.map Prod.snd),
      accountRow a = [toString a.client, formatDec4 a.available, formatDec4 a.held,
        formatDec4 a.total, if a.locked then "true" else "false"]) ∧
    (∀ v : Int, ∃ fp : String,
      formatDec4 v = ((if v < 0 then "-" else "") ++ toString (v.natAbs / 10000)) ++ "." ++ fp ∧
      fp.length = 4 ∧ ∀ ch ∈ fp.toList, ch.isDigit = true) ∧
    (∀ items : List CsvItem, EngineWF (processCsvState items)) := by
  refine ⟨rfl, rfl, sortAccounts_perm _, ?_, fun a _ => rfl, ?_, ?_⟩
  · apply sorted_strict _ (sortAccounts_sorted _)
    have hperm : ((sortAccounts (e.accounts.map Prod.snd)).map ClientAccount.client).Perm
        ((e.accounts.map Prod.snd).map ClientAccount.client) :=
      (sortAccounts_perm _).map _
    rw [hperm.nodup_iff]
    have hmap : (e.accounts.map Prod.snd).map ClientAccount.client = e.accounts.map Prod.fst := by
      rw [List.map_map]
      exact List.map_congr_left fun p hp => hWF.2 p hp
    rw [hmap]
    exact hWF.1
  · intro v
    refine ⟨frac4 (v.natAbs % 10000), rfl, rfl, ?_⟩
    intro ch hch
    simp only [frac4, String.toList, String.mk, List.mem_cons, List.not_mem_nil,
      or_false] at hch
    rcases hch with hch | hch | hch | hch <;>
      · rw [hch]; exact digitChar_isDigit _ (Nat.mod_lt _ (by omega))
  · intro items
    exact engineWF_stream items PaymentsEngine.new
      ⟨by simp [PaymentsEngine.new], by simp [PaymentsEngine.new]⟩

/-- Witness for C8: the snapshot of a concrete two-account engine, with
the accounts stored out of order. -/
theorem c8_write_output_witness :
    (PaymentsEngine.mk [(2, ClientAccount.mk 2 20000 0 20000 false),
        (1, ClientAccount.mk 1 105000 0 105000 false)] [] false).write_output =
      [["client", "available", "held", "total", "locked"],
       ["1", "10.5000", "0.0000", "10.5000", "false"],
       ["2", "2.0000", "0.0000", "2.0000", "false"]] := by
  rw [(c8_write_output (PaymentsEngine.mk [(2, ClientAccount.mk 2 20000 0 20000 false),
    (1, ClientAccount.mk 1 105000 0 105000 false)] [] false) ⟨by decide, by decide⟩).1]
  decide

/-! ### Claim C3 -/

theorem availableOf_getD (e : PaymentsEngine) (c : Nat) :
    availableOf e c = ((alookup e.accounts c).getD (ClientAccount.new c)).available := by
  unfold availableOf
  cases alookup e.accounts c with
  | none => rfl
  | some a => rfl

theorem availableOf_ensure (e : PaymentsEngine) (c' c : Nat) :
    availableOf (e.ensure_account_exists c') c = availableOf e c := by
  unfold PaymentsEngine.ensure_account_exists
  split
  · rfl
  · rename_i hns
    have hnone : alookup e.accounts c' = none := by
      cases hl : alookup e.accounts c' with
      | none => rfl
      | some a => rw [hl] at hns; simp at hns
    unfold availableOf
    simp only
    by_cases hc : c' = c
    · subst hc
      rw [alookup_append_right _ _ _ hnone, hnone]
      simp [alookup, ClientAccount.new]
    · cases hl : alookup e.accounts c with
      | none =>
        rw [alookup_append_right _ _ _ hl]
        simp [alookup, hc]
      | some a =>
        rw [alookup_append_left _ _ _ (by rw [hl]; rfl), hl]

theorem availableOf_some {e : PaymentsEngine} {c : Nat} {a : ClientAccount}
    (h : alookup e.accounts c = some a) : availableOf e c = a.available := by
  unfold availableOf
  rw [h]
  rfl

theorem map_available_getD (o : Option ClientAccount) (c : Nat) :
    (Option.map ClientAccount.available o).getD 0 = (o.getD (ClientAccount.new c)).available := by
  cases o <;> rfl

/-- How one dispatch step can change a client's available balance:
either it is unchanged, or a deposit added its (own-client) amount, or a
withdrawal subtracted an amount no larger than the balance, or an
accepted dispute subtracted the stored amount, or an accepted resolve
added the stored amount. -/
theorem availableOf_step_cases (e : PaymentsEngine) (tx : ParsedTransaction) (c : Nat) :
    availableOf (e.process_transaction tx) c = availableOf e c ∨
    (∃ amt, tx.kind = TxKind.deposit amt ∧ tx.client = c ∧
      availableOf (e.process_transaction tx) c = availableOf e c + amt) ∨
    (∃ amt, tx.kind = TxKind.withdrawal amt ∧ tx.client = c ∧ amt ≤ availableOf e c ∧
      availableOf (e.process_transaction tx) c = availableOf e c - amt) ∨
    (∃ st, tx.kind = TxKind.dispute ∧ tx.client = c ∧
      alookup e.transactions tx.tx_id = some st ∧ st.client = c ∧
      st.under_dispute = false ∧ e.is_account_locked c = false ∧
      availableOf (e.process_transaction tx) c = availableOf e c - st.amount) ∨
    (∃ st, tx.kind = TxKind.resolve ∧
      alookup e.transactions tx.tx_id = some st ∧
      availableOf (e.process_transaction tx) c = availableOf e c + st.amount) := by
  obtain ⟨t, c', kind⟩ := tx
  cases kind with
  | deposit amt =>
    simp only [PaymentsEngine.process_transaction]
    split
    · rename_i hnone
      rw [ensure_lookup_self] at hnone
      cases hnone
    · rename_i a0 hsome
      rw [ensure_lookup_self] at hsome
      injection hsome with hsome
      subst hsome
      split
      · exact Or.inl (availableOf_ensure e c' c)
      · rename_i hlock
        unfold PaymentsEngine.process_deposit
        split
        · exact Or.inl (availableOf_ensure e c' c)
        · split
          · rename_i hnone
            rw [ensure_lookup_self] at hnone
            cases hnone
          · rename_i a1 hsome1
            rw [ensure_lookup_self] at hsome1
            injection hsome1 with hsome1
            subst hsome1
            have hlocked : ((alookup e.accounts c').getD (ClientAccount.new c')).locked
                = false := by
              unfold ClientAccount.is_locked at hlock
              simpa using hlock
            have hacc : (Option.map ClientAccount.available
                  (alookup (aset (e.ensure_account_exists c').accounts c'
                    (((alookup e.accounts c').getD (ClientAccount.new c')).deposit amt).2)
                    c)).getD 0 = availableOf e c ∨
                (c' = c ∧ (Option.map ClientAccount.available
                  (alookup (aset (e.ensure_account_exists c').accounts c'
                    (((alookup e.accounts c').getD (ClientAccount.new c')).deposit amt).2)
                    c)).getD 0 = availableOf e c + amt) := by
              by_cases hc : c' = c
              · subst hc
                right
                refine ⟨rfl, ?_⟩
                rw [alookup_aset_self _ _ _ (by rw [ensure_lookup_self]; rfl)]
                unfold availableOf
                cases h2 : alookup e.accounts c' with
                | none => simp [ClientAccount.deposit, ClientAccount.new]
                | some a =>
                  rw [h2] at hlocked
                  simp only [Option.getD_some] at hlocked
                  simp [ClientAccount.deposit, hlocked]
              · left
                rw [alookup_aset_ne _ _ _ _ hc]
                have h2 := availableOf_ensure e c' c
                unfold availableOf at h2
                exact h2
            dsimp only
            split
            · rcases hacc with h | ⟨hc, h⟩
              · exact Or.inl h
              · exact Or.inr (Or.inl ⟨amt, rfl, hc, h⟩)
            · rcases hacc with h | ⟨hc, h⟩
              · exact Or.inl h
              · exact Or.inr (Or.inl ⟨amt, rfl, hc, h⟩)
  | withdrawal amt =>
    simp only [PaymentsEngine.process_transaction]
    split
    · rename_i hnone
      rw [ensure_lookup_self] at hnone
      cases hnone
    · rename_i a0 hsome
      rw [ensure_lookup_self] at hsome
      injection hsome with hsome
      subst hsome
      split
      · exact Or.inl (availableOf_ensure e c' c)
      · rename_i hlock
        unfold PaymentsEngine.process_withdrawal
        split
        · exact Or.inl (availableOf_ensure e c' c)
        · split
          · rename_i hnone
            rw [ensure_lookup_self] at hnone
            cases hnone
          · rename_i a1 hsome1
            rw [ensure_lookup_self] at hsome1
            injection hsome1 with hsome1
            subst hsome1
            have hlocked : ((alookup e.accounts c').getD (ClientAccount.new c')).locked
                = false := by
              unfold ClientAccount.is_locked at hlock
              simpa using hlock
            by_cases hav : ((alookup e.accounts c').getD (ClientAccount.new c')).available < amt
            · left
              by_cases hc : c' = c
              · subst hc
                have key : (Option.map ClientAccount.available
                    (alookup (aset (e.ensure_account_exists c').accounts c'
                      (((alookup e.accounts c').getD (ClientAccount.new c')).withdraw amt).2)
                      c')).getD 0 = availableOf e c' := by
                  rw [alookup_aset_self _ _ _ (by rw [ensure_lookup_self]; rfl)]
                  rw [availableOf_getD]
                  simp [ClientAccount.withdraw, hlocked, hav]
                exact key
              · have key : (Option.map ClientAccount.available
                    (alookup (aset (e.ensure_account_exists c').accounts c'
                      (((alookup e.accounts c').getD (ClientAccount.new c')).withdraw amt).2)
                      c)).getD 0 = availableOf e c := by
                  rw [alookup_aset_ne _ _ _ _ hc]
                  have h2 := availableOf_ensure e c' c
                  unfold availableOf at h2
                  exact h2
                exact key
            · by_cases hc : c' = c
              · subst hc
                right; right; left
                refine ⟨amt, rfl, rfl, ?_, ?_⟩
                · rw [availableOf_getD]
                  omega
                · have key : (Option.map ClientAccount.available
                      (alookup (aset (e.ensure_account_exists c').accounts c'
                        (((alookup e.accounts c').getD (ClientAccount.new c')).withdraw amt).2)
                        c')).getD 0 = availableOf e c' - amt := by
                    rw [alookup_aset_self _ _ _ (by rw [ensure_lookup_self]; rfl)]
                    rw [availableOf_getD]
                    simp [ClientAccount.withdraw, hlocked, hav]
                  exact key
              · left
                have key : (Option.map ClientAccount.available
                    (alookup (aset (e.ensure_account_exists c').accounts c'
                      (((alookup e.accounts c').getD (ClientAccount.new c')).withdraw amt).2)
                      c)).getD 0 = availableOf e c := by
                  rw [alookup_aset_ne _ _ _ _ hc]
                  have h2 := availableOf_ensure e c' c
                  unfold availableOf at h2
                  exact h2
                exact key
  | dispute =>
    simp only [PaymentsEngine.process_transaction]
    split
    · exact Or.inl rfl
    · rename_i hlock
      unfold PaymentsEngine.process_dispute
      split
      · exact Or.inl rfl
      · rename_i st ht
        split
        · exact Or.inl rfl
        · rename_i hcl
          push_neg at hcl
          split
          · exact Or.inl rfl
          · rename_i hd
            simp only [Bool.not_eq_true] at hd
            dsimp only
            split
            · exact Or.inl rfl
            · rename_i account hacc2
              have hacc3 : alookup e.accounts c' = some account := hacc2
              have haccl : account.locked = false := by
                unfold PaymentsEngine.is_account_locked at hlock
                rw [hacc3] at hlock
                unfold ClientAccount.is_locked at hlock
                simpa using hlock
              by_cases hc : c' = c
              · subst hc
                right; right; right; left
                refine ⟨st, by trivial, by trivial, ht, hcl, hd, ?_, ?_⟩
                · unfold PaymentsEngine.is_account_locked
                  rw [hacc3]
                  unfold ClientAccount.is_locked
                  simpa using haccl
                · have key : (Option.map ClientAccount.available
                      (alookup (aset e.accounts c' (account.hold st.amount).2) c')).getD 0 =
                      availableOf e c' - st.amount := by
                    rw [alookup_aset_self _ _ _ (by rw [hacc3]; rfl)]
                    rw [availableOf_some hacc3]
                    simp [ClientAccount.hold, haccl]
                  exact key
              · left
                have key : (Option.map ClientAccount.available
                    (alookup (aset e.accounts c' (account.hold st.amount).2) c)).getD 0 =
                    availableOf e c := by
                  rw [alookup_aset_ne _ _ _ _ hc]
                  rfl
                exact key
  | resolve =>
    simp only [PaymentsEngine.process_transaction]
    split
    · exact Or.inl rfl
    · rename_i hlock
      unfold PaymentsEngine.process_resolve
      split
      · exact Or.inl rfl
      · rename_i st ht
        split
        · exact Or.inl rfl
        · rename_i hcl
          push_neg at hcl
          split
          · exact Or.inl rfl
          · rename_i hd
            dsimp only
            split
            · exact Or.inl rfl
            · rename_i account hacc2
              have hacc3 : alookup e.accounts c' = some account := hacc2
              have haccl : account.locked = false := by
                unfold PaymentsEngine.is_account_locked at hlock
                rw [hacc3] at hlock
                unfold ClientAccount.is_locked at hlock
                simpa using hlock
              by_cases hc : c' = c
              · subst hc
                right; right; right; right
                refine ⟨st, by trivial, ht, ?_⟩
                have key : (Option.map ClientAccount.available
                    (alookup (aset e.accounts c' (account.release st.amount).2) c')).getD 0 =
                    availableOf e c' + st.amount := by
                  rw [alookup_aset_self _ _ _ (by rw [hacc3]; rfl)]
                  rw [availableOf_some hacc3]
                  simp [ClientAccount.release, haccl]
                exact key
              · left
                have key : (Option.map ClientAccount.available
                    (alookup (aset e.accounts c' (account.release st.amount).2) c)).getD 0 =
                    availableOf e c := by
                  rw [alookup_aset_ne _ _ _ _ hc]
                  rfl
                exact key
  | chargeback =>
    simp only [PaymentsEngine.process_transaction]
    split
    · exact Or.inl rfl
    · rename_i hlock
      unfold PaymentsEngine.process_chargeback
      split
      · exact Or.inl rfl
      · rename_i st ht
        split
        · exact Or.inl rfl
        · rename_i hcl
          split
          · exact Or.inl rfl
          · rename_i hd
            dsimp only
            split
            · exact Or.inl rfl
            · rename_i account hacc2
              have hacc3 : alookup e.accounts c' = some account := hacc2
              have haccl : account.locked = false := by
                unfold PaymentsEngine.is_account_locked at hlock
                rw [hacc3] at hlock
                unfold ClientAccount.is_locked at hlock
                simpa using hlock
              left
              by_cases hc : c' = c
              · subst hc
                have key : (Option.map ClientAccount.available
                    (alookup (aset e.accounts c' (account.chargeback st.amount).2) c')).getD 0 =
                    availableOf e c' := by
                  rw [alookup_aset_self _ _ _ (by rw [hacc3]; rfl)]
                  rw [availableOf_some hacc3]
                  simp [ClientAccount.chargeback, haccl]
                exact key
              · have key : (Option.map ClientAccount.available
                    (alookup (aset e.accounts c' (account.chargeback st.amount).2) c)).getD 0 =
                    availableOf e c := by
                  rw [alookup_aset_ne _ _ _ _ hc]
                  rfl
                exact key

theorem process_transaction_transactions (e : PaymentsEngine) (tx : ParsedTransaction) :
    (e.process_transaction tx).transactions = e.transactions ∨
    (∃ amt, tx.kind = TxKind.deposit amt ∧
      (e.process_transaction tx).transactions =
        e.transactions ++ [(tx.tx_id, StoredTransaction.from_deposit tx.tx_id tx.client amt)]) ∨
    (∃ st b, alookup e.transactions tx.tx_id = some st ∧
      (e.process_transaction tx).transactions =
        aset e.transactions tx.tx_id { st with under_dispute := b }) := by
  obtain ⟨t, c', kind⟩ := tx
  cases kind with
  | deposit amt =>
    simp only [PaymentsEngine.process_transaction]
    split
    · exact Or.inl (ensure_transactions e c')
    · split
      · exact Or.inl (ensure_transactions e c')
      · unfold PaymentsEngine.process_deposit
        split
        · exact Or.inl (ensure_transactions e c')
        · split
          · exact Or.inl (ensure_transactions e c')
          · dsimp only
            split
            · right; left
              refine ⟨amt, rfl, ?_⟩
              show (e.ensure_account_exists c').transactions ++
                  [(t, StoredTransaction.from_deposit t c' amt)] =
                e.transactions ++ [(t, StoredTransaction.from_deposit t c' amt)]
              rw [ensure_transactions]
            · exact Or.inl (ensure_transactions e c')
  | withdrawal amt =>
    simp only [PaymentsEngine.process_transaction]
    split
    · exact Or.inl (ensure_transactions e c')
    · split
      · exact Or.inl (ensure_transactions e c')
      · unfold PaymentsEngine.process_withdrawal
        split
        · exact Or.inl (ensure_transactions e c')
        · split
          · exact Or.inl (ensure_transactions e c')
          · exact Or.inl (ensure_transactions e c')
  | dispute =>
    simp only [PaymentsEngine.process_transaction]
    split
    · exact Or.inl rfl
    · unfold PaymentsEngine.process_dispute
      split
      · exact Or.inl rfl
      · rename_i st ht
        split
        · exact Or.inl rfl
        · split
          · exact Or.inl rfl
          · dsimp only
            split
            · exact Or.inr (Or.inr ⟨st, true, ht, rfl⟩)
            · exact Or.inr (Or.inr ⟨st, true, ht, rfl⟩)
  | resolve =>
    simp only [PaymentsEngine.process_transaction]
    split
    · exact Or.inl rfl
    · unfold PaymentsEngine.process_resolve
      split
      · exact Or.inl rfl
      · rename_i st ht
        split
        · exact Or.inl rfl
        · split
          · exact Or.inl rfl
          · dsimp only
            split
            · exact Or.inr (Or.inr ⟨st, false, ht, rfl⟩)
            · exact Or.inr (Or.inr ⟨st, false, ht, rfl⟩)
  | chargeback =>
    simp only [PaymentsEngine.process_transaction]
    split
    · exact Or.inl rfl
    · unfold PaymentsEngine.process_chargeback
      split
      · exact Or.inl rfl
      · rename_i st ht
        split
        · exact Or.inl rfl
        · split
          · exact Or.inl rfl
          · dsimp only
            split
            · exact Or.inr (Or.inr ⟨st, false, ht, rfl⟩)
            · exact Or.inr (Or.inr ⟨st, false, ht, rfl⟩)

theorem txNonneg_step {e : PaymentsEngine} (hnn : TxNonneg e) {it : CsvItem}
    (hit : itemAmountNonneg it = true) : TxNonneg (csvStep e it) := by
  cases it with
  | err f => exact hnn
  | ok r =>
    cases hp : r.parse with
    | none =>
      intro p hpm
      simp only [csvStep, hp] at hpm
      exact hnn p hpm
    | some tx =>
      have hstep : csvStep e (CsvItem.ok r) = e.process_transaction tx := by
        simp [csvStep, hp]
      rw [hstep]
      obtain ⟨tt, tc, tk⟩ := tx
      rcases process_transaction_transactions e ⟨tt, tc, tk⟩ with h | ⟨amt, hk, h⟩ |
        ⟨st, b, hst, h⟩
      · intro p hpm
        rw [h] at hpm
        exact hnn p hpm
      · simp only at hk
        subst hk
        have hamt : 0 ≤ amt := by
          simp only [itemAmountNonneg, hp] at hit
          exact of_decide_eq_true hit
        intro p hpm
        rw [h] at hpm
        simp only [List.mem_append, List.mem_singleton] at hpm
        rcases hpm with hm | hm
        · exact hnn p hm
        · rw [hm]
          exact hamt
      · intro p hpm
        rw [h] at hpm
        rcases mem_aset hpm with hm | hm
        · rw [hm]
          exact hnn (tt, st) (alookup_mem hst)
        · exact hnn p hm

theorem txNonneg_stream :
    ∀ (items : List CsvItem) (e : PaymentsEngine), TxNonneg e →
      (∀ it ∈ items, itemAmountNonneg it = true) → TxNonneg (items.foldl csvStep e) := by
  intro items
  induction items with
  | nil => intro e h _; exact h
  | cons it rest ih =>
    intro e h hnn
    simp only [List.foldl_cons]
    exact ih (csvStep e it) (txNonneg_step h (hnn it (List.mem_cons_self it rest)))
      fun x hx => hnn x (List.mem_cons_of_mem it hx)

/-- One step can only drive (or keep) a client's available balance
negative if it was already negative or the step is an accepted dispute
whose stored amount exceeds the balance. -/
theorem available_step (e : PaymentsEngine) (it : CsvItem) (c : Nat)
    (hnn : TxNonneg e) (hit : itemAmountNonneg it = true)
    (hneg : availableOf (csvStep e it) c < 0) :
    availableOf e c < 0 ∨ disputeOpensExceeding e it c = true := by
  cases it with
  | err f => exact Or.inl hneg
  | ok r =>
    cases hp : r.parse with
    | none =>
      left
      simpa [csvStep, hp] using hneg
    | some tx =>
      have hstep : csvStep e (CsvItem.ok r) = e.process_transaction tx := by
        simp [csvStep, hp]
      rw [hstep] at hneg
      rcases availableOf_step_cases e tx c with h | ⟨amt, hk, hcl, h⟩ |
        ⟨amt, hk, hcl, hle, h⟩ | ⟨st, hk, hcl, ht, hstc, hd, hlk, h⟩ | ⟨st, hk, ht, h⟩
      · left
        rw [h] at hneg
        exact hneg
      · left
        have hamt : 0 ≤ amt := by
          obtain ⟨tt, tc, tk⟩ := tx
          simp only at hk
          subst hk
          simp only [itemAmountNonneg, hp] at hit
          exact of_decide_eq_true hit
        rw [h] at hneg
        omega
      · exfalso
        rw [h] at hneg
        omega
      · right
        rw [h] at hneg
        obtain ⟨tt, tc, tk⟩ := tx
        simp only at hk hcl ht
        subst hk
        simp only [disputeOpensExceeding, disputeOpensExceedingTx, hp, ht]
        simp [hcl, hlk, hstc, hd]
        omega
      · left
        have hamt : 0 ≤ st.amount := hnn (tx.tx_id, st) (alookup_mem ht)
        rw [h] at hneg
        omega

theorem c3_aux :
    ∀ (items : List CsvItem) (c : Nat),
      (∀ it ∈ items, itemAmountNonneg it = true) →
      availableOf (processCsvState items) c < 0 →
      ∃ i : Fin items.length,
        disputeOpensExceeding (processCsvState (items.take i.1)) (items.get i) c = true := by
  intro items
  induction items using List.reverseRecOn with
  | nil =>
    intro c _ hneg
    exfalso
    simp [processCsvState, PaymentsEngine.new, availableOf, alookup] at hneg
  | append_singleton its it ih =>
    intro c hnn hneg
    have hnn' : ∀ x ∈ its, itemAmountNonneg x = true :=
      fun x hx => hnn x (List.mem_append_left _ hx)
    have hitnn : itemAmountNonneg it = true :=
      hnn it (List.mem_append_right _ (List.mem_singleton_self it))
    have hfold : processCsvState (its ++ [it]) = csvStep (processCsvState its) it := by
      simp [processCsvState, List.foldl_append]
    rw [hfold] at hneg
    have htx : TxNonneg (processCsvState its) :=
      txNonneg_stream its PaymentsEngine.new
        (by intro p hp; simp [PaymentsEngine.new] at hp) hnn'
    rcases available_step (processCsvState its) it c htx hitnn hneg with h | h
    · obtain ⟨i, hi⟩ := ih c hnn' h
      refine ⟨⟨i.1, by simp only [List.length_append, List.length_singleton]; omega⟩, ?_⟩
      simp only [List.get_eq_getElem]
      rw [List.take_append_of_le_length (le_of_lt i.2)]
      rw [List.getElem_append_left i.2]
      simp only [List.get_eq_getElem] at hi
      exact hi
    · refine ⟨⟨its.length, by simp⟩, ?_⟩
      simp only [List.get_eq_getElem]
      rw [List.take_left its [it]]
      rw [List.getElem_append_right (le_refl its.length)]
      simpa using h

/-- C3 (amended): for a record stream all of whose deposit and
withdrawal amounts are non-negative, whenever a client's available
balance is negative after processing the stream from a fresh engine,
some earlier record of the stream was an accepted dispute on a stored
deposit of that client whose stored amount exceeded the client's
available balance at that moment; no other record kind can drive
`available` negative. -/
theorem c3_negative_available (items : List CsvItem) (c : Nat)
    (hnn : ∀ it ∈ items, itemAmountNonneg it = true)
    (hneg : availableOf (processCsvState items) c < 0) :
    ∃ i : Fin items.length,
      disputeOpensExceeding (processCsvState (items.take i.1)) (items.get i) c = true :=
  c3_aux items c hnn hneg

/-- Witness for the amended C3 on the spec's scenario 3. -/
theorem c3_negative_available_witness :
    ∃ i : Fin negativeStream.length,
      disputeOpensExceeding (processCsvState (negativeStream.take i.1))
        (negativeStream.get i) 1 = true :=
  c3_negative_available negativeStream 1 (by decide) (by decide)

/-- C3 counterexample: a single deposit of "-5.0" passes validation and
leaves `available` negative although no dispute was ever opened (no
record of the stream opens a dispute at all). -/
theorem c3_counterexample :
    availableOf (processCsvState
      [CsvItem.ok (TransactionRecord.mk "deposit" 1 1 (some "-5.0"))]) 1 < 0 ∧
    ¬ ∃ i : Fin ([CsvItem.ok (TransactionRecord.mk "deposit" 1 1 (some "-5.0"))] :
        List CsvItem).length,
      disputeOpensExceeding
        (processCsvState ([CsvItem.ok
          (TransactionRecord.mk "deposit" 1 1 (some "-5.0"))].take i.1))
        ([CsvItem.ok (TransactionRecord.mk "deposit" 1 1 (some "-5.0"))].get i) 1 = true := by
  constructor
  · decide
  · decide
